import Mathlib

/-!
Shallow embedding of the OnviaTV backend matchmaking core
(`src/routes.ts` together with the in-memory report store
`MemStorage` of `src/storage.ts`).

The server keeps, per Socket.IO server instance:
  * `activeUsers` — a `Map` from socket id to the user record
    `{ id, gender, preferences: { gender, country }, currentPeer }`;
  * `waitingUsers` — three JavaScript `Set`s of socket ids
    (`male`, `female`, `both`);
  * the report store (`MemStorage`) with its `reportIdCounter`.

JavaScript `Map`s are embedded as association lists over `String`
keys (insertion order is irrelevant to every handler: the registry is
only read through `get`), and `Set`s as duplicate-free lists in
insertion order, which the matching loop iterates in order.  Handler
mutations of the user object fetched from the map are in-place in
JavaScript, so every such mutation is written back into the
association list at the point where it happens in the source.

Each inbound Socket.IO event is one constructor of `Event`; handling
an event is the function `step`, producing the successor state and
the list of emitted messages (`io.to(id).emit(...)` / `socket.emit`).
`step` returns `none` exactly where the source would throw: the
match-commit branch of the `find-peer` handler reads
`activeUsers.get(matchId)` and dereferences the result without a
guard, so a missing candidate session is modelled as `none`.
-/

/-- The `preferences` object of a user record: desired gender
(category) and desired country (region), both plain strings in the
source (`"male"`, `"female"`, `"both"`; country code or `"any"`). -/
structure Prefs where
  gender : String
  country : String
deriving DecidableEq, Repr

/-- The user record stored in `activeUsers` (routes.ts lines 101-109):
own id, own declared gender, preferences, and the optional id of the
current peer. -/
structure User where
  id : String
  gender : String
  preferences : Prefs
  currentPeer : Option String
deriving DecidableEq, Repr

/-- The three waiting-pool partitions `waitingUsers.male/.female/.both`,
each a JavaScript `Set` of socket ids embedded as a list in insertion
order. -/
structure Pools where
  male : List String
  female : List String
  both : List String
deriving DecidableEq, Repr

/-- A stored abuse report (storage.ts): the insert payload plus the
identifier assigned by `MemStorage.createReport`. -/
structure Report where
  id : Nat
  reporterId : String
  reportedId : String
  reason : String
  details : String
  timestamp : Nat
deriving DecidableEq, Repr

/-- The state of `MemStorage` that the core touches: the stored
reports (in insertion order) and the `reportIdCounter`, which starts
at 1. -/
structure Storage where
  reports : List Report
  reportIdCounter : Nat
deriving DecidableEq, Repr

/-- Embeds `MemStorage.createReport` (storage.ts lines 42-47): assign the
current counter value as the id, store the record, bump the counter,
return the stored record. -/
def createReport (st : Storage) (reporterId reportedId reason details : String)
    (timestamp : Nat) : Report × Storage :=
  let rep : Report :=
    ⟨st.reportIdCounter, reporterId, reportedId, reason, details, timestamp⟩
  (rep, ⟨st.reports ++ [rep], st.reportIdCounter + 1⟩)

/-- The whole mutable state of the server closure in `registerRoutes`. -/
structure ServerState where
  activeUsers : List (String × User)
  waiting : Pools
  storage : Storage
deriving DecidableEq, Repr

/-- Embeds `Map.get`: the value at the first matching key, if any. -/
def mapGet {α : Type} : List (String × α) → String → Option α
  | [], _ => none
  | (k', v) :: rest, k => if k' = k then some v else mapGet rest k

/-- Embeds `Map.set`: replace the entry in place if the key is present,
otherwise append a new entry. -/
def mapSet {α : Type} : List (String × α) → String → α → List (String × α)
  | [], k, v => [(k, v)]
  | (k', v') :: rest, k, v =>
      if k' = k then (k, v) :: rest else (k', v') :: mapSet rest k v

/-- Embeds `Map.delete`: drop every entry with the key. -/
def mapDelete {α : Type} : List (String × α) → String → List (String × α)
  | [], _ => []
  | (k', v') :: rest, k =>
      if k' = k then mapDelete rest k else (k', v') :: mapDelete rest k

/-- Embeds `Set.add`: append the element unless already present. -/
def setAdd (l : List String) (x : String) : List String :=
  if x ∈ l then l else l ++ [x]

/-- Embeds `Set.delete`: remove the element. -/
def setDelete (l : List String) (x : String) : List String :=
  l.filter (fun y => ¬ (y = x))

/-- Embeds `findMatch` (routes.ts lines 32-67): pick the candidate pool from
the seeker's preferred gender, filter by country compatibility when
the seeker's country preference is not `"any"` (a candidate survives
when it is still registered and its own stored country preference
equals the seeker's or is `"any"`), and return the first candidate
different from the seeker. -/
def findMatch (s : ServerState) (socketId : String) : Option String :=
  match mapGet s.activeUsers socketId with
  | none => none
  | some user =>
    let pm :=
      if user.preferences.gender = "male" then s.waiting.male
      else if user.preferences.gender = "female" then s.waiting.female
      else s.waiting.male ++ s.waiting.female ++ s.waiting.both
    let pm :=
      if user.preferences.country = "any" then pm
      else
        pm.filter (fun mid =>
          match mapGet s.activeUsers mid with
          | some mu =>
              mu.preferences.country == user.preferences.country ||
                mu.preferences.country == "any"
          | none => false)
    pm.find? (fun mid => ¬ (mid = socketId))

/-- Embeds `addToWaitingPool` (routes.ts lines 70-87): no-op for an
unregistered socket; otherwise delete the id from all three pools and
add it to the pool named by the user's own `gender` field (anything
other than `"male"`/`"female"` goes to `both`). -/
def addToWaitingPool (s : ServerState) (socketId : String) : ServerState :=
  match mapGet s.activeUsers socketId with
  | none => s
  | some user =>
    let w : Pools :=
      ⟨setDelete s.waiting.male socketId,
       setDelete s.waiting.female socketId,
       setDelete s.waiting.both socketId⟩
    let w :=
      if user.gender = "male" then { w with male := setAdd w.male socketId }
      else if user.gender = "female" then { w with female := setAdd w.female socketId }
      else { w with both := setAdd w.both socketId }
    { s with waiting := w }

/-- Embeds `removeFromWaitingPools` (routes.ts lines 90-94). -/
def removeFromWaitingPools (w : Pools) (socketId : String) : Pools :=
  ⟨setDelete w.male socketId, setDelete w.female socketId, setDelete w.both socketId⟩

/-- The four relayed message kinds: `offer`, `answer`, `ice-candidate`,
`chat-message`.  Their handlers (routes.ts lines 167-194) are textually
identical up to this tag, so they are embedded as one parametrised
handler. -/
inductive MsgKind
  | offer
  | answer
  | iceCandidate
  | chatMessage
deriving DecidableEq, Repr

/-- A message the server emits to one socket id. -/
inductive OutMsg
  | peerDisconnected
  | ready
  | relayed (kind : MsgKind) (payload : String)
deriving DecidableEq, Repr

/-- One emitted message: destination socket id and the message. -/
abbrev Output := String × OutMsg

/-- One inbound event, as dispatched by the Socket.IO connection
handler.  A relayed payload and the report timestamp (`new Date()`)
are inputs from outside the core. -/
inductive Event
  | connect (id : String)
  | updatePreferences (id : String) (prefs : Prefs)
  | findPeer (id : String)
  | relayMsg (id : String) (kind : MsgKind) (payload : String)
  | reportUser (id : String) (reason details : String) (timestamp : Nat)
  | disconnect (id : String)
deriving DecidableEq, Repr

/-- The user record installed on connection (routes.ts lines 101-109). -/
def initUser (socketId : String) : User :=
  ⟨socketId, "both", ⟨"both", "any"⟩, none⟩

/-- The `connection` handler's initialisation of `activeUsers`. -/
def handleConnect (s : ServerState) (socketId : String) : ServerState :=
  { s with activeUsers := mapSet s.activeUsers socketId (initUser socketId) }

/-- The `update-preferences` handler (routes.ts lines 112-118):
replace the stored preferences object of a registered user; otherwise
do nothing. -/
def handleUpdatePreferences (s : ServerState) (socketId : String) (prefs : Prefs) :
    ServerState :=
  match mapGet s.activeUsers socketId with
  | none => s
  | some user =>
    { s with activeUsers := mapSet s.activeUsers socketId { user with preferences := prefs } }

/-- The teardown prefix of the `find-peer` handler (routes.ts lines
126-137): if the caller has a current peer, clear the peer's
`currentPeer` and notify it when the peer is still registered, and
clear the caller's own `currentPeer`. -/
def teardownPeer (s : ServerState) (socketId : String) (user : User) :
    ServerState × List Output :=
  match user.currentPeer with
  | none => (s, [])
  | some p =>
    match mapGet s.activeUsers p with
    | some peer =>
      let a1 := mapSet s.activeUsers p { peer with currentPeer := none }
      let a2 := mapSet a1 socketId { user with currentPeer := none }
      ({ s with activeUsers := a2 }, [(p, OutMsg.peerDisconnected)])
    | none =>
      let a1 := mapSet s.activeUsers socketId { user with currentPeer := none }
      ({ s with activeUsers := a1 }, [])

/-- The match-commit suffix of the `find-peer` handler (routes.ts
lines 142-159): set both `currentPeer` fields, remove both ids from
every waiting pool, and emit `ready` to the caller and to the match. -/
def commitMatch (s : ServerState) (socketId matchId : String) (user mu : User) :
    ServerState × List Output :=
  let a1 := mapSet s.activeUsers socketId { user with currentPeer := some matchId }
  let a2 := mapSet a1 matchId { mu with currentPeer := some socketId }
  let w := removeFromWaitingPools (removeFromWaitingPools s.waiting socketId) matchId
  ({ s with activeUsers := a2, waiting := w },
   [(socketId, OutMsg.ready), (matchId, OutMsg.ready)])

/-- The `find-peer` handler (routes.ts lines 121-164).  The commit
branch reads `activeUsers.get(matchId)` and dereferences it without a
guard; the `none` result models the TypeError the source would throw
there. -/
def handleFindPeer (s : ServerState) (socketId : String) :
    Option (ServerState × List Output) :=
  match mapGet s.activeUsers socketId with
  | none => some (s, [])
  | some user =>
    let td := teardownPeer s socketId user
    match findMatch td.1 socketId with
    | some matchId =>
      match mapGet td.1.activeUsers matchId with
      | some mu =>
        let c := commitMatch td.1 socketId matchId { user with currentPeer := none } mu
        some (c.1, td.2 ++ c.2)
      | none => none
    | none => some (addToWaitingPool td.1 socketId, td.2)

/-- The signaling / chat relay handlers (routes.ts lines 167-194):
forward the payload, tagged with the same kind, to the sender's
current peer; silently drop it when the sender is unregistered or
unpaired. -/
def handleRelay (s : ServerState) (socketId : String) (kind : MsgKind)
    (payload : String) : ServerState × List Output :=
  match mapGet s.activeUsers socketId with
  | some user =>
    match user.currentPeer with
    | some p => (s, [(p, OutMsg.relayed kind payload)])
    | none => (s, [])
  | none => (s, [])

/-- The `report-user` handler (routes.ts lines 197-220): when the
reporter is registered and paired, store a report against the current
peer, then tear the pairing down (the peer, when still registered, is
cleared and notified; the reporter is cleared). -/
def handleReport (s : ServerState) (socketId reason details : String)
    (timestamp : Nat) : ServerState × List Output :=
  match mapGet s.activeUsers socketId with
  | some user =>
    match user.currentPeer with
    | some p =>
      let st := (createReport s.storage socketId p reason details timestamp).2
      let tdOut :=
        match mapGet s.activeUsers p with
        | some peer =>
          (mapSet s.activeUsers p { peer with currentPeer := none },
           [(p, OutMsg.peerDisconnected)])
        | none => (s.activeUsers, ([] : List Output))
      let a2 := mapSet tdOut.1 socketId { user with currentPeer := none }
      ({ s with activeUsers := a2, storage := st }, tdOut.2)
    | none => (s, [])
  | none => (s, [])

/-- The `disconnect` handler (routes.ts lines 223-243): when the
leaver is registered and paired, notify the peer (the emit happens
before the peer lookup, hence unconditionally) and clear it when
still registered; then purge the leaver from every waiting pool and
from the registry. -/
def handleDisconnect (s : ServerState) (socketId : String) :
    ServerState × List Output :=
  let su :=
    match mapGet s.activeUsers socketId with
    | some user =>
      match user.currentPeer with
      | some p =>
        match mapGet s.activeUsers p with
        | some peer =>
          ({ s with activeUsers := mapSet s.activeUsers p { peer with currentPeer := none } },
           [(p, OutMsg.peerDisconnected)])
        | none => (s, [(p, OutMsg.peerDisconnected)])
      | none => (s, ([] : List Output))
    | none => (s, ([] : List Output))
  let a2 := mapDelete su.1.activeUsers socketId
  let w2 := removeFromWaitingPools su.1.waiting socketId
  ({ su.1 with activeUsers := a2, waiting := w2 }, su.2)

/-- One complete event-handling turn. -/
def step (s : ServerState) : Event → Option (ServerState × List Output)
  | .connect id => some (handleConnect s id, [])
  | .updatePreferences id p => some (handleUpdatePreferences s id p, [])
  | .findPeer id => handleFindPeer s id
  | .relayMsg id kind payload => some (handleRelay s id kind payload)
  | .reportUser id reason details t => some (handleReport s id reason details t)
  | .disconnect id => some (handleDisconnect s id)

/-- The transport layer owns socket ids and guarantees their
uniqueness (a `connection` event always carries an id that is not
currently connected); all other events are unconstrained. -/
def eventWF (s : ServerState) : Event → Bool
  | .connect id => (mapGet s.activeUsers id).isNone
  | _ => true

/-- The state before any connection: empty registry, empty pools,
fresh `MemStorage`. -/
def initState : ServerState :=
  ⟨[], ⟨[], [], []⟩, ⟨[], 1⟩⟩

/-- Run a sequence of well-formed events from a state; `none` when an
event is ill-formed for the transport layer or a handler throws. -/
def runEvents : ServerState → List Event → Option ServerState
  | s, [] => some s
  | s, e :: evs =>
    if eventWF s e then
      match step s e with
      | some (s1, _) => runEvents s1 evs
      | none => none
    else none

/-- A state is reachable when some well-formed event sequence leads to
it from the empty state. -/
def Reachable (s : ServerState) : Prop :=
  ∃ evs : List Event, runEvents initState evs = some s

/-- Membership of an id in any of the three waiting-pool partitions. -/
def inPools (w : Pools) (a : String) : Prop :=
  a ∈ w.male ∨ a ∈ w.female ∨ a ∈ w.both

/-- Statement of the match algorithm in the specification's wording,
for comparison with the embedded `findMatch`: return none for an
unregistered seeker; otherwise take the candidate list for the
seeker's desired category, and when the seeker's desired region is
not `"any"` keep exactly those candidates whose own stored session's
desired region equals the seeker's or equals `"any"` (a candidate
with no stored session has no stored region and is dropped); exclude
the seeker's own identifier and return the first surviving candidate
in iteration order, or none. -/
def findMatchSpec (s : ServerState) (seekerId : String) : Option String :=
  match mapGet s.activeUsers seekerId with
  | none => none
  | some seeker =>
    let cands :=
      if seeker.preferences.gender = "male" then s.waiting.male
      else if seeker.preferences.gender = "female" then s.waiting.female
      else s.waiting.male ++ s.waiting.female ++ s.waiting.both
    let kept :=
      if seeker.preferences.country = "any" then cands
      else
        cands.filter (fun mid =>
          match mapGet s.activeUsers mid with
          | some mu =>
              mu.preferences.country == seeker.preferences.country ||
                mu.preferences.country == "any"
          | none => false)
    let surviving := kept.filter (fun mid => ¬ (mid = seekerId))
    surviving.head?

/-- Two connections that each request a match: "a" waits, then "b"
is paired with "a". -/
def pairEvents : List Event :=
  [.connect "a", .findPeer "a", .connect "b", .findPeer "b"]

/-- The state after `pairEvents`: "a" and "b" are mutually paired and
no pool is occupied. -/
def sPaired : ServerState :=
  (runEvents initState pairEvents).getD initState

/-- One connection that requests a match and waits. -/
def waitEvents : List Event :=
  [.connect "a", .findPeer "a"]

/-- The state after `waitEvents`: "a" sits alone in the `both` pool. -/
def sWaiting : ServerState :=
  (runEvents initState waitEvents).getD initState

/-- One connection that sets a male-seeking preference. -/
def maleSeekEvents : List Event :=
  [.connect "a", .updatePreferences "a" ⟨"male", "any"⟩]

/-- The state after `maleSeekEvents`. -/
def sMaleSeek : ServerState :=
  (runEvents initState maleSeekEvents).getD initState

/-- The inductive invariant of the event loop, proved to hold in
every reachable state: pairing pointers are registered, symmetric,
never self-referential; paired sessions are not pooled; pooled ids
are registered; every registered session keeps the initial gender
`"both"`; the male and female pools stay empty; stored report ids
stay below the counter. -/
structure CoreInv (s : ServerState) : Prop where
  peerReg : ∀ a ua p, mapGet s.activeUsers a = some ua → ua.currentPeer = some p →
    (mapGet s.activeUsers p).isSome
  pairSymm : ∀ a ua b ub, mapGet s.activeUsers a = some ua →
    mapGet s.activeUsers b = some ub → ua.currentPeer = some b → ub.currentPeer = some a
  noSelf : ∀ a ua, mapGet s.activeUsers a = some ua → ua.currentPeer ≠ some a
  pairedNotPooled : ∀ a ua, mapGet s.activeUsers a = some ua → ua.currentPeer ≠ none →
    ¬ inPools s.waiting a
  pooledReg : ∀ a, inPools s.waiting a → (mapGet s.activeUsers a).isSome
  genderBoth : ∀ a ua, mapGet s.activeUsers a = some ua → ua.gender = "both"
  maleNil : s.waiting.male = []
  femaleNil : s.waiting.female = []
  reportIds : ∀ r ∈ s.storage.reports, r.id < s.storage.reportIdCounter

/-! Helper lemmas on the embedded `Map` and `Set` operations. -/

theorem mapGet_mapSet {α : Type} (m : List (String × α)) (k : String) (v : α)
    (k' : String) :
    mapGet (mapSet m k v) k' = if k' = k then some v else mapGet m k' := by
  induction m with
  | nil =>
    by_cases h : k' = k
    · simp [mapSet, mapGet, h]
    · simp [mapSet, mapGet, h, Ne.symm h]
  | cons hd tl ih =>
    obtain ⟨a, b⟩ := hd
    by_cases hak : a = k
    · subst hak
      by_cases hk : k' = a
      · simp [mapSet, mapGet, hk]
      · simp [mapSet, mapGet, hk, Ne.symm hk]
    · by_cases hak' : a = k'
      · subst hak'
        simp [mapSet, mapGet, hak, Ne.symm hak, ih]
      · simp [mapSet, mapGet, hak, hak', ih]

theorem mapGet_mapDelete {α : Type} (m : List (String × α)) (k k' : String) :
    mapGet (mapDelete m k) k' = if k' = k then none else mapGet m k' := by
  induction m with
  | nil => simp [mapDelete, mapGet]
  | cons hd tl ih =>
    obtain ⟨a, b⟩ := hd
    by_cases hak : a = k
    · subst hak
      by_cases hk : k' = a
      · subst hk
        simp [mapDelete, mapGet, ih]
      · simp [mapDelete, mapGet, hk, Ne.symm hk, ih]
    · by_cases hak' : a = k'
      · subst hak'
        simp [mapDelete, mapGet, hak, Ne.symm hak, ih]
      · simp [mapDelete, mapGet, hak, hak', ih]

theorem mapDelete_of_get_none {α : Type} (m : List (String × α)) (k : String)
    (h : mapGet m k = none) : mapDelete m k = m := by
  induction m with
  | nil => rfl
  | cons hd tl ih =>
    obtain ⟨a, b⟩ := hd
    by_cases hak : a = k
    · simp [mapGet, hak] at h
    · simp [mapGet, hak] at h
      simp [mapDelete, hak, ih h]

theorem mem_setAdd (l : List String) (x a : String) :
    a ∈ setAdd l x ↔ a ∈ l ∨ a = x := by
  unfold setAdd
  by_cases h : x ∈ l
  · simp only [if_pos h]
    constructor
    · exact Or.inl
    · rintro (ha | rfl)
      · exact ha
      · exact h
  · simp [if_neg h]

theorem mem_setDelete (l : List String) (x a : String) :
    a ∈ setDelete l x ↔ a ∈ l ∧ a ≠ x := by
  unfold setDelete
  simp [List.mem_filter]

theorem setDelete_nil (x : String) : setDelete [] x = [] := rfl

theorem setDelete_of_not_mem (l : List String) (x : String) (h : x ∉ l) :
    setDelete l x = l := by
  unfold setDelete
  rw [List.filter_eq_self]
  intro a ha
  simp only [decide_eq_true_eq]
  intro hax
  subst hax
  exact h ha

theorem find?_eq_filter_head? (p : String → Bool) (l : List String) :
    l.find? p = (l.filter p).head? := by
  induction l with
  | nil => rfl
  | cons hd tl ih =>
    rw [List.filter_cons]
    cases h : p hd
    · rw [List.find?_cons_of_neg _ (by simp [h])]
      rw [if_neg (by decide : ¬ false = true)]
      exact ih
    · rw [List.find?_cons_of_pos _ h]
      rw [if_pos (rfl : true = true)]
      rfl

/-! Equation lemmas: each handler reduced under hypotheses about the
registry lookups it performs. -/

theorem teardownPeer_of_unpaired (s : ServerState) (id : String) (u : User)
    (h : u.currentPeer = none) : teardownPeer s id u = (s, []) := by
  unfold teardownPeer
  rw [h]

theorem teardownPeer_of_peer (s : ServerState) (id : String) (u : User) (p : String)
    (peer : User) (h : u.currentPeer = some p) (hp : mapGet s.activeUsers p = some peer) :
    teardownPeer s id u =
      ({ s with activeUsers := mapSet (mapSet s.activeUsers p { peer with currentPeer := none }) id { u with currentPeer := none } },
       [(p, OutMsg.peerDisconnected)]) := by
  unfold teardownPeer
  rw [h]
  dsimp only
  rw [hp]

theorem teardownPeer_of_dangling (s : ServerState) (id : String) (u : User) (p : String)
    (h : u.currentPeer = some p) (hp : mapGet s.activeUsers p = none) :
    teardownPeer s id u =
      ({ s with activeUsers := mapSet s.activeUsers id { u with currentPeer := none } },
       []) := by
  unfold teardownPeer
  rw [h]
  dsimp only
  rw [hp]

theorem handleFindPeer_of_get_none (s : ServerState) (id : String)
    (h : mapGet s.activeUsers id = none) : handleFindPeer s id = some (s, []) := by
  unfold handleFindPeer
  rw [h]

theorem handleFindPeer_of_commit (s : ServerState) (id : String) (u : User) (m : String)
    (mu : User) (h : mapGet s.activeUsers id = some u)
    (hm : findMatch (teardownPeer s id u).1 id = some m)
    (hmu : mapGet (teardownPeer s id u).1.activeUsers m = some mu) :
    handleFindPeer s id =
      some ((commitMatch (teardownPeer s id u).1 id m { u with currentPeer := none } mu).1,
        (teardownPeer s id u).2 ++
          (commitMatch (teardownPeer s id u).1 id m { u with currentPeer := none } mu).2) := by
  unfold handleFindPeer
  rw [h]
  dsimp only
  rw [hm]
  dsimp only
  rw [hmu]

theorem handleFindPeer_of_crash (s : ServerState) (id : String) (u : User) (m : String)
    (h : mapGet s.activeUsers id = some u)
    (hm : findMatch (teardownPeer s id u).1 id = some m)
    (hmu : mapGet (teardownPeer s id u).1.activeUsers m = none) :
    handleFindPeer s id = none := by
  unfold handleFindPeer
  rw [h]
  dsimp only
  rw [hm]
  dsimp only
  rw [hmu]

theorem handleFindPeer_of_nomatch (s : ServerState) (id : String) (u : User)
    (h : mapGet s.activeUsers id = some u)
    (hm : findMatch (teardownPeer s id u).1 id = none) :
    handleFindPeer s id =
      some (addToWaitingPool (teardownPeer s id u).1 id, (teardownPeer s id u).2) := by
  unfold handleFindPeer
  rw [h]
  dsimp only
  rw [hm]

theorem handleRelay_of_get_none (s : ServerState) (id : String) (kind : MsgKind)
    (payload : String) (h : mapGet s.activeUsers id = none) :
    handleRelay s id kind payload = (s, []) := by
  unfold handleRelay
  rw [h]

theorem handleRelay_of_unpaired (s : ServerState) (id : String) (kind : MsgKind)
    (payload : String) (u : User) (h : mapGet s.activeUsers id = some u)
    (hcp : u.currentPeer = none) : handleRelay s id kind payload = (s, []) := by
  unfold handleRelay
  rw [h]
  dsimp only
  rw [hcp]

theorem handleRelay_of_paired (s : ServerState) (id : String) (kind : MsgKind)
    (payload : String) (u : User) (p : String) (h : mapGet s.activeUsers id = some u)
    (hcp : u.currentPeer = some p) :
    handleRelay s id kind payload = (s, [(p, OutMsg.relayed kind payload)]) := by
  unfold handleRelay
  rw [h]
  dsimp only
  rw [hcp]

theorem handleUpdatePreferences_of_get_none (s : ServerState) (id : String) (p : Prefs)
    (h : mapGet s.activeUsers id = none) : handleUpdatePreferences s id p = s := by
  unfold handleUpdatePreferences
  rw [h]

theorem handleUpdatePreferences_of_get_some (s : ServerState) (id : String) (p : Prefs)
    (u : User) (h : mapGet s.activeUsers id = some u) :
    handleUpdatePreferences s id p =
      { s with activeUsers := mapSet s.activeUsers id { u with preferences := p } } := by
  unfold handleUpdatePreferences
  rw [h]

theorem handleReport_of_get_none (s : ServerState) (id reason details : String) (t : Nat)
    (h : mapGet s.activeUsers id = none) : handleReport s id reason details t = (s, []) := by
  unfold handleReport
  rw [h]

theorem handleReport_of_unpaired (s : ServerState) (id reason details : String) (t : Nat)
    (u : User) (h : mapGet s.activeUsers id = some u) (hcp : u.currentPeer = none) :
    handleReport s id reason details t = (s, []) := by
  unfold handleReport
  rw [h]
  dsimp only
  rw [hcp]

theorem handleReport_of_paired (s : ServerState) (id reason details : String) (t : Nat)
    (u : User) (p : String) (peer : User) (h : mapGet s.activeUsers id = some u)
    (hcp : u.currentPeer = some p) (hp : mapGet s.activeUsers p = some peer) :
    handleReport s id reason details t =
      ({ s with
         activeUsers := mapSet (mapSet s.activeUsers p { peer with currentPeer := none }) id { u with currentPeer := none },
         storage := ⟨s.storage.reports ++ [⟨s.storage.reportIdCounter, id, p, reason, details, t⟩], s.storage.reportIdCounter + 1⟩ },
       [(p, OutMsg.peerDisconnected)]) := by
  unfold handleReport createReport
  rw [h]
  dsimp only
  rw [hcp]
  dsimp only
  rw [hp]

theorem handleReport_of_dangling (s : ServerState) (id reason details : String) (t : Nat)
    (u : User) (p : String) (h : mapGet s.activeUsers id = some u)
    (hcp : u.currentPeer = some p) (hp : mapGet s.activeUsers p = none) :
    handleReport s id reason details t =
      ({ s with
         activeUsers := mapSet s.activeUsers id { u with currentPeer := none },
         storage := ⟨s.storage.reports ++ [⟨s.storage.reportIdCounter, id, p, reason, details, t⟩], s.storage.reportIdCounter + 1⟩ },
       []) := by
  unfold handleReport createReport
  rw [h]
  dsimp only
  rw [hcp]
  dsimp only
  rw [hp]

theorem handleDisconnect_of_get_none (s : ServerState) (id : String)
    (h : mapGet s.activeUsers id = none) :
    handleDisconnect s id =
      ({ s with activeUsers := mapDelete s.activeUsers id,
                waiting := removeFromWaitingPools s.waiting id }, []) := by
  unfold handleDisconnect
  rw [h]

theorem handleDisconnect_of_unpaired (s : ServerState) (id : String) (u : User)
    (h : mapGet s.activeUsers id = some u) (hcp : u.currentPeer = none) :
    handleDisconnect s id =
      ({ s with activeUsers := mapDelete s.activeUsers id,
                waiting := removeFromWaitingPools s.waiting id }, []) := by
  unfold handleDisconnect
  rw [h]
  dsimp only
  rw [hcp]

theorem handleDisconnect_of_paired (s : ServerState) (id : String) (u : User) (p : String)
    (peer : User) (h : mapGet s.activeUsers id = some u) (hcp : u.currentPeer = some p)
    (hp : mapGet s.activeUsers p = some peer) :
    handleDisconnect s id =
      ({ s with
         activeUsers := mapDelete (mapSet s.activeUsers p { peer with currentPeer := none }) id,
         waiting := removeFromWaitingPools s.waiting id },
       [(p, OutMsg.peerDisconnected)]) := by
  unfold handleDisconnect
  rw [h]
  dsimp only
  rw [hcp]
  dsimp only
  rw [hp]

theorem handleDisconnect_of_dangling (s : ServerState) (id : String) (u : User) (p : String)
    (h : mapGet s.activeUsers id = some u) (hcp : u.currentPeer = some p)
    (hp : mapGet s.activeUsers p = none) :
    handleDisconnect s id =
      ({ s with activeUsers := mapDelete s.activeUsers id,
                waiting := removeFromWaitingPools s.waiting id },
       [(p, OutMsg.peerDisconnected)]) := by
  unfold handleDisconnect
  rw [h]
  dsimp only
  rw [hcp]
  dsimp only
  rw [hp]

theorem addToWaitingPool_of_get_none (s : ServerState) (id : String)
    (h : mapGet s.activeUsers id = none) : addToWaitingPool s id = s := by
  unfold addToWaitingPool
  rw [h]

theorem addToWaitingPool_of_both (s : ServerState) (id : String) (u : User)
    (h : mapGet s.activeUsers id = some u) (hm : ¬ u.gender = "male")
    (hf : ¬ u.gender = "female") :
    addToWaitingPool s id =
      { s with waiting :=
          ⟨setDelete s.waiting.male id, setDelete s.waiting.female id,
           setAdd (setDelete s.waiting.both id) id⟩ } := by
  unfold addToWaitingPool
  rw [h]
  dsimp only
  rw [if_neg hm, if_neg hf]

theorem addToWaitingPool_of_male (s : ServerState) (id : String) (u : User)
    (h : mapGet s.activeUsers id = some u) (hm : u.gender = "male") :
    addToWaitingPool s id =
      { s with waiting :=
          ⟨setAdd (setDelete s.waiting.male id) id, setDelete s.waiting.female id,
           setDelete s.waiting.both id⟩ } := by
  unfold addToWaitingPool
  rw [h]
  dsimp only
  rw [if_pos hm]

theorem addToWaitingPool_of_female (s : ServerState) (id : String) (u : User)
    (h : mapGet s.activeUsers id = some u) (hm : ¬ u.gender = "male")
    (hf : u.gender = "female") :
    addToWaitingPool s id =
      { s with waiting :=
          ⟨setDelete s.waiting.male id, setAdd (setDelete s.waiting.female id) id,
           setDelete s.waiting.both id⟩ } := by
  unfold addToWaitingPool
  rw [h]
  dsimp only
  rw [if_neg hm, if_pos hf]

/-! The inductive invariant: establishment and preservation. -/

theorem coreInv_initState : CoreInv initState := by
  constructor <;> simp [initState, mapGet, inPools]

theorem inPools_of_remove (w : Pools) (x a : String) :
    inPools (removeFromWaitingPools w x) a → inPools w a ∧ a ≠ x := by
  rintro (hm | hm | hm) <;>
    rw [removeFromWaitingPools] at hm <;>
    rw [mem_setDelete] at hm
  · exact ⟨Or.inl hm.1, hm.2⟩
  · exact ⟨Or.inr (Or.inl hm.1), hm.2⟩
  · exact ⟨Or.inr (Or.inr hm.1), hm.2⟩

theorem coreInv_storage_bump (t : ServerState) (r : Report) (h : CoreInv t)
    (hr : r.id = t.storage.reportIdCounter) :
    CoreInv { t with storage := ⟨t.storage.reports ++ [r], t.storage.reportIdCounter + 1⟩ } := by
  refine ⟨h.peerReg, h.pairSymm, h.noSelf, h.pairedNotPooled, h.pooledReg, h.genderBoth,
    h.maleNil, h.femaleNil, ?_⟩
  intro r' hr'
  rcases List.mem_append.mp hr' with hmem | hmem
  · exact Nat.lt_succ_of_lt (h.reportIds r' hmem)
  · have : r' = r := by simpa using hmem
    subst this
    rw [hr]
    exact Nat.lt_succ_self _

theorem coreInv_handleConnect (s : ServerState) (id : String) (h : CoreInv s)
    (hfresh : mapGet s.activeUsers id = none) : CoreInv (handleConnect s id) := by
  have hget : ∀ k, mapGet (handleConnect s id).activeUsers k =
      if k = id then some (initUser id) else mapGet s.activeUsers k := by
    intro k
    exact mapGet_mapSet s.activeUsers id (initUser id) k
  refine ⟨?_, ?_, ?_, ?_, ?_, ?_, h.maleNil, h.femaleNil, h.reportIds⟩
  · intro a ua p ha hp
    rw [hget] at ha
    rw [hget]
    split at ha
    · cases ha
      cases hp
    · split
      · simp
      · exact h.peerReg a ua p ha hp
  · intro a ua b ub ha hb hab
    rw [hget] at ha hb
    split at ha
    · cases ha
      cases hab
    · split at hb
      · rename_i hbid
        subst hbid
        have hx := h.peerReg a ua b ha hab
        rw [hfresh] at hx
        simp at hx
      · exact h.pairSymm a ua b ub ha hb hab
  · intro a ua ha
    rw [hget] at ha
    split at ha
    · cases ha
      simp [initUser]
    · exact h.noSelf a ua ha
  · intro a ua ha hcp
    rw [hget] at ha
    split at ha
    · cases ha
      simp [initUser] at hcp
    · exact h.pairedNotPooled a ua ha hcp
  · intro a hpool
    rw [hget]
    split
    · simp
    · exact h.pooledReg a hpool
  · intro a ua ha
    rw [hget] at ha
    split at ha
    · cases ha
      rfl
    · exact h.genderBoth a ua ha

theorem coreInv_handleUpdatePreferences (s : ServerState) (id : String) (p : Prefs)
    (h : CoreInv s) : CoreInv (handleUpdatePreferences s id p) := by
  cases hu : mapGet s.activeUsers id with
  | none =>
    rw [handleUpdatePreferences_of_get_none s id p hu]
    exact h
  | some u =>
    rw [handleUpdatePreferences_of_get_some s id p u hu]
    have hget : ∀ k, mapGet (mapSet s.activeUsers id { u with preferences := p }) k =
        if k = id then some { u with preferences := p } else mapGet s.activeUsers k := by
      intro k
      exact mapGet_mapSet s.activeUsers id _ k
    refine ⟨?_, ?_, ?_, ?_, ?_, ?_, h.maleNil, h.femaleNil, h.reportIds⟩
    · intro a ua q ha hq
      rw [hget] at ha
      show (mapGet (mapSet s.activeUsers id { u with preferences := p }) q).isSome
      rw [hget]
      split
      · simp
      · split at ha
        · cases ha
          exact h.peerReg id u q hu hq
        · exact h.peerReg a ua q ha hq
    · intro a ua b ub ha hb hab
      rw [hget] at ha hb
      split at ha
      · rename_i haid
        cases ha
        split at hb
        · rename_i hbid
          cases hb
          rw [hbid] at hab
          rw [haid]
          exact hab
        · rw [haid]
          exact h.pairSymm id u b ub hu hb hab
      · split at hb
        · rename_i hbid
          cases hb
          rw [hbid] at hab
          exact h.pairSymm a ua id u ha hu hab
        · exact h.pairSymm a ua b ub ha hb hab
    · intro a ua ha
      rw [hget] at ha
      split at ha
      · rename_i haid
        cases ha
        rw [haid]
        exact h.noSelf id u hu
      · exact h.noSelf a ua ha
    · intro a ua ha hcp
      rw [hget] at ha
      split at ha
      · rename_i haid
        cases ha
        rw [haid]
        exact h.pairedNotPooled id u hu hcp
      · exact h.pairedNotPooled a ua ha hcp
    · intro a hpool
      rw [hget]
      split
      · simp
      · exact h.pooledReg a hpool
    · intro a ua ha
      rw [hget] at ha
      split at ha
      · cases ha
        exact h.genderBoth id u hu
      · exact h.genderBoth a ua ha

theorem coreInv_unpair (s : ServerState) (id p : String) (u peer : User)
    (h : CoreInv s) (hu : mapGet s.activeUsers id = some u) (hcp : u.currentPeer = some p)
    (hpeer : mapGet s.activeUsers p = some peer) :
    CoreInv { s with activeUsers := mapSet (mapSet s.activeUsers p { peer with currentPeer := none }) id { u with currentPeer := none } } := by
  have hpid : ¬ p = id := by
    intro he
    apply h.noSelf id u hu
    rw [hcp, he]
  have hpeercp : peer.currentPeer = some id := h.pairSymm id u p peer hu hpeer hcp
  have hget : ∀ k, mapGet (mapSet (mapSet s.activeUsers p { peer with currentPeer := none }) id { u with currentPeer := none }) k =
      if k = id then some { u with currentPeer := none }
      else if k = p then some { peer with currentPeer := none }
      else mapGet s.activeUsers k := by
    intro k
    rw [mapGet_mapSet, mapGet_mapSet]
  refine ⟨?_, ?_, ?_, ?_, ?_, ?_, h.maleNil, h.femaleNil, h.reportIds⟩
  · intro a ua q ha hq
    rw [hget] at ha
    rw [hget]
    split at ha
    · cases ha
      cases hq
    · split at ha
      · cases ha
        cases hq
      · split
        · simp
        · split
          · simp
          · exact h.peerReg a ua q ha hq
  · intro a ua b ub ha hb hab
    rw [hget] at ha hb
    split at ha
    · cases ha
      cases hab
    · split at ha
      · cases ha
        cases hab
      · rename_i hna hnp
        split at hb
        · rename_i hbid
          cases hb
          rw [hbid] at hab
          have hx := h.pairSymm a ua id u ha hu hab
          rw [hcp] at hx
          injection hx with hpa
          exact absurd hpa.symm hnp
        · split at hb
          · rename_i hbp
            cases hb
            rw [hbp] at hab
            have hx := h.pairSymm a ua p peer ha hpeer hab
            rw [hpeercp] at hx
            injection hx with hia
            exact absurd hia.symm hna
          · exact h.pairSymm a ua b ub ha hb hab
  · intro a ua ha
    rw [hget] at ha
    split at ha
    · cases ha
      intro hx
      cases hx
    · split at ha
      · cases ha
        intro hx
        cases hx
      · exact h.noSelf a ua ha
  · intro a ua ha hcpa
    rw [hget] at ha
    split at ha
    · cases ha
      exact absurd rfl hcpa
    · split at ha
      · cases ha
        exact absurd rfl hcpa
      · exact h.pairedNotPooled a ua ha hcpa
  · intro a hpool
    rw [hget]
    split
    · simp
    · split
      · simp
      · exact h.pooledReg a hpool
  · intro a ua ha
    rw [hget] at ha
    split at ha
    · cases ha
      exact h.genderBoth id u hu
    · split at ha
      · cases ha
        exact h.genderBoth p peer hpeer
      · exact h.genderBoth a ua ha

theorem coreInv_teardownPeer (s : ServerState) (id : String) (u : User)
    (h : CoreInv s) (hu : mapGet s.activeUsers id = some u) :
    CoreInv (teardownPeer s id u).1 ∧
      mapGet (teardownPeer s id u).1.activeUsers id = some { u with currentPeer := none } ∧
      (teardownPeer s id u).1.waiting = s.waiting ∧
      (teardownPeer s id u).1.storage = s.storage := by
  cases hcp : u.currentPeer with
  | none =>
    rw [teardownPeer_of_unpaired s id u hcp]
    refine ⟨h, ?_, rfl, rfl⟩
    rw [hu]
    congr 1
    cases u
    simp only [User.mk.injEq] at hcp ⊢
    simp [hcp]
  | some p =>
    have hpReg := h.peerReg id u p hu hcp
    obtain ⟨peer, hpeer⟩ := Option.isSome_iff_exists.mp hpReg
    rw [teardownPeer_of_peer s id u p peer hcp hpeer]
    refine ⟨coreInv_unpair s id p u peer h hu hcp hpeer, ?_, rfl, rfl⟩
    rw [mapGet_mapSet]
    simp

theorem mem_of_mem_countryFilter {l : List String} {f : String → Bool} {m : String}
    {C : Prop} [Decidable C] (h : m ∈ (if C then l else l.filter f)) : m ∈ l := by
  split at h
  · exact h
  · exact (List.mem_filter.mp h).1

theorem inPools_of_mem_poolChoice {w : Pools} {m : String} {C1 C2 : Prop}
    [Decidable C1] [Decidable C2]
    (h : m ∈ (if C1 then w.male else if C2 then w.female else w.male ++ w.female ++ w.both)) :
    inPools w m := by
  split at h
  · exact Or.inl h
  · split at h
    · exact Or.inr (Or.inl h)
    · rcases List.mem_append.mp h with h1 | h2
      · rcases List.mem_append.mp h1 with ha | hb
        · exact Or.inl ha
        · exact Or.inr (Or.inl hb)
      · exact Or.inr (Or.inr h2)

theorem findMatch_sound (s : ServerState) (sid m : String) (h : CoreInv s)
    (hm : findMatch s sid = some m) :
    m ≠ sid ∧ inPools s.waiting m ∧
      ∃ mu, mapGet s.activeUsers m = some mu ∧ mu.currentPeer = none := by
  unfold findMatch at hm
  cases hu : mapGet s.activeUsers sid with
  | none =>
    rw [hu] at hm
    cases hm
  | some user =>
    rw [hu] at hm
    dsimp only at hm
    have hne : m ≠ sid := by
      have hp := List.find?_some hm
      simpa using hp
    have hmem2 := List.mem_of_find?_eq_some hm
    have hmemBase := mem_of_mem_countryFilter hmem2
    have hpools : inPools s.waiting m := inPools_of_mem_poolChoice hmemBase
    obtain ⟨mu, hmu⟩ := Option.isSome_iff_exists.mp (h.pooledReg m hpools)
    have hcpmu : mu.currentPeer = none := by
      cases hcpm : mu.currentPeer with
      | none => rfl
      | some q =>
        exfalso
        apply h.pairedNotPooled m mu hmu _ hpools
        rw [hcpm]
        simp
    exact ⟨hne, hpools, mu, hmu, hcpmu⟩


theorem coreInv_commitMatch (s : ServerState) (id m : String) (u1 mu : User)
    (h : CoreInv s) (hu : mapGet s.activeUsers id = some u1)
    (hcp1 : u1.currentPeer = none) (hm : mapGet s.activeUsers m = some mu)
    (hcp2 : mu.currentPeer = none) (hne : ¬ m = id) :
    CoreInv (commitMatch s id m u1 mu).1 := by
  have hget : ∀ k, mapGet (commitMatch s id m u1 mu).1.activeUsers k =
      if k = m then some { mu with currentPeer := some id }
      else if k = id then some { u1 with currentPeer := some m }
      else mapGet s.activeUsers k := by
    intro k
    show mapGet (mapSet (mapSet s.activeUsers id { u1 with currentPeer := some m }) m { mu with currentPeer := some id }) k = _
    rw [mapGet_mapSet, mapGet_mapSet]
  have hwait : (commitMatch s id m u1 mu).1.waiting =
      removeFromWaitingPools (removeFromWaitingPools s.waiting id) m := rfl
  refine ⟨?_, ?_, ?_, ?_, ?_, ?_, ?_, ?_, h.reportIds⟩
  · intro a ua q ha hq
    rw [hget] at ha
    rw [hget]
    split at ha
    · cases ha
      dsimp only at hq
      cases hq
      rw [if_neg (fun he => hne he.symm), if_pos rfl]
      simp
    · split at ha
      · cases ha
        dsimp only at hq
        cases hq
        rw [if_pos rfl]
        simp
      · split
        · simp
        · split
          · simp
          · exact h.peerReg a ua q ha hq
  · intro a ua b ub ha hb hab
    rw [hget] at ha hb
    split at ha
    · rename_i ham
      cases ha
      dsimp only at hab
      cases hab
      rw [if_neg (fun he => hne he.symm), if_pos rfl] at hb
      cases hb
      dsimp only
      rw [ham]
    · split at ha
      · rename_i hna haid
        cases ha
        dsimp only at hab
        cases hab
        rw [if_pos rfl] at hb
        cases hb
        dsimp only
        rw [haid]
      · rename_i hnm hnid
        split at hb
        · rename_i hbm
          cases hb
          rw [hbm] at hab
          have hx := h.pairSymm a ua m mu ha hm hab
          rw [hcp2] at hx
          cases hx
        · split at hb
          · rename_i hbid
            cases hb
            rw [hbid] at hab
            have hx := h.pairSymm a ua id u1 ha hu hab
            rw [hcp1] at hx
            cases hx
          · exact h.pairSymm a ua b ub ha hb hab
  · intro a ua ha
    rw [hget] at ha
    split at ha
    · rename_i ham
      cases ha
      intro hx
      dsimp only at hx
      injection hx with hia
      exact hne (hia.trans ham).symm
    · split at ha
      · rename_i hnm haid
        cases ha
        intro hx
        dsimp only at hx
        injection hx with hma
        exact hne (hma.trans haid)
      · exact h.noSelf a ua ha
  · intro a ua ha hcpa hpool
    rw [hwait] at hpool
    obtain ⟨hp1, hnm⟩ := inPools_of_remove _ m a hpool
    obtain ⟨hp0, hnid⟩ := inPools_of_remove _ id a hp1
    rw [hget] at ha
    rw [if_neg hnm, if_neg hnid] at ha
    exact h.pairedNotPooled a ua ha hcpa hp0
  · intro a hpool
    rw [hwait] at hpool
    obtain ⟨hp1, hnm⟩ := inPools_of_remove _ m a hpool
    obtain ⟨hp0, hnid⟩ := inPools_of_remove _ id a hp1
    rw [hget]
    rw [if_neg hnm, if_neg hnid]
    exact h.pooledReg a hp0
  · intro a ua ha
    rw [hget] at ha
    split at ha
    · cases ha
      exact h.genderBoth m mu hm
    · split at ha
      · cases ha
        exact h.genderBoth id u1 hu
      · exact h.genderBoth a ua ha
  · show setDelete (setDelete s.waiting.male id) m = []
    rw [h.maleNil]
    rfl
  · show setDelete (setDelete s.waiting.female id) m = []
    rw [h.femaleNil]
    rfl

theorem coreInv_addToWaitingPool (s : ServerState) (id : String) (u : User)
    (h : CoreInv s) (hu : mapGet s.activeUsers id = some u)
    (hcpu : u.currentPeer = none) : CoreInv (addToWaitingPool s id) := by
  have hg := h.genderBoth id u hu
  have hgm : ¬ u.gender = "male" := by
    rw [hg]
    decide
  have hgf : ¬ u.gender = "female" := by
    rw [hg]
    decide
  rw [addToWaitingPool_of_both s id u hu hgm hgf]
  refine ⟨h.peerReg, h.pairSymm, h.noSelf, ?_, ?_, h.genderBoth, ?_, ?_, h.reportIds⟩
  · intro a ua ha hcpa hpool
    rcases hpool with hm1 | hm2 | hm3
    · rw [mem_setDelete] at hm1
      exact h.pairedNotPooled a ua ha hcpa (Or.inl hm1.1)
    · rw [mem_setDelete] at hm2
      exact h.pairedNotPooled a ua ha hcpa (Or.inr (Or.inl hm2.1))
    · rw [mem_setAdd] at hm3
      rcases hm3 with hm3 | hae
      · rw [mem_setDelete] at hm3
        exact h.pairedNotPooled a ua ha hcpa (Or.inr (Or.inr hm3.1))
      · rw [hae, hu] at ha
        cases ha
        exact hcpa hcpu
  · intro a hpool
    rcases hpool with hm1 | hm2 | hm3
    · rw [mem_setDelete] at hm1
      exact h.pooledReg a (Or.inl hm1.1)
    · rw [mem_setDelete] at hm2
      exact h.pooledReg a (Or.inr (Or.inl hm2.1))
    · rw [mem_setAdd] at hm3
      rcases hm3 with hm3 | hae
      · rw [mem_setDelete] at hm3
        exact h.pooledReg a (Or.inr (Or.inr hm3.1))
      · rw [hae, hu]
        simp
  · show setDelete s.waiting.male id = []
    rw [h.maleNil]
    rfl
  · show setDelete s.waiting.female id = []
    rw [h.femaleNil]
    rfl

theorem handleFindPeer_ok (s : ServerState) (id : String) (h : CoreInv s) :
    ∃ s' out, handleFindPeer s id = some (s', out) ∧ CoreInv s' := by
  cases hu : mapGet s.activeUsers id with
  | none => exact ⟨s, [], handleFindPeer_of_get_none s id hu, h⟩
  | some u =>
    obtain ⟨hinv1, hgetid, hwait1, hstor1⟩ := coreInv_teardownPeer s id u h hu
    cases hfm : findMatch (teardownPeer s id u).1 id with
    | none =>
      refine ⟨_, _, handleFindPeer_of_nomatch s id u hu hfm, ?_⟩
      exact coreInv_addToWaitingPool _ id _ hinv1 hgetid rfl
    | some m =>
      obtain ⟨hne, hpools, mu, hmu, hcpmu⟩ := findMatch_sound _ id m hinv1 hfm
      refine ⟨_, _, handleFindPeer_of_commit s id u m mu hu hfm hmu, ?_⟩
      exact coreInv_commitMatch _ id m _ mu hinv1 hgetid rfl hmu hcpmu hne

theorem coreInv_handleReport (s : ServerState) (id reason details : String) (t : Nat)
    (h : CoreInv s) : CoreInv (handleReport s id reason details t).1 := by
  cases hu : mapGet s.activeUsers id with
  | none =>
    rw [handleReport_of_get_none s id reason details t hu]
    exact h
  | some u =>
    cases hcp : u.currentPeer with
    | none =>
      rw [handleReport_of_unpaired s id reason details t u hu hcp]
      exact h
    | some p =>
      have hpReg := h.peerReg id u p hu hcp
      obtain ⟨peer, hpeer⟩ := Option.isSome_iff_exists.mp hpReg
      rw [handleReport_of_paired s id reason details t u p peer hu hcp hpeer]
      have h1 := coreInv_unpair s id p u peer h hu hcp hpeer
      exact coreInv_storage_bump _ ⟨s.storage.reportIdCounter, id, p, reason, details, t⟩ h1 rfl

theorem coreInv_deleteId (t : ServerState) (id : String) (h : CoreInv t)
    (hnoin : ∀ a ua, mapGet t.activeUsers a = some ua → ua.currentPeer ≠ some id) :
    CoreInv { t with activeUsers := mapDelete t.activeUsers id,
                     waiting := removeFromWaitingPools t.waiting id } := by
  have hget : ∀ k, mapGet (mapDelete t.activeUsers id) k =
      if k = id then none else mapGet t.activeUsers k := by
    intro k
    exact mapGet_mapDelete t.activeUsers id k
  refine ⟨?_, ?_, ?_, ?_, ?_, ?_, ?_, ?_, h.reportIds⟩
  · intro a ua q ha hq
    rw [hget] at ha
    split at ha
    · cases ha
    · rw [hget]
      have hqid : ¬ q = id := by
        intro he
        exact hnoin a ua ha (he ▸ hq)
      rw [if_neg hqid]
      exact h.peerReg a ua q ha hq
  · intro a ua b ub ha hb hab
    rw [hget] at ha hb
    split at ha
    · cases ha
    · split at hb
      · cases hb
      · exact h.pairSymm a ua b ub ha hb hab
  · intro a ua ha
    rw [hget] at ha
    split at ha
    · cases ha
    · exact h.noSelf a ua ha
  · intro a ua ha hcpa hpool
    rw [hget] at ha
    split at ha
    · cases ha
    · obtain ⟨hp0, _⟩ := inPools_of_remove t.waiting id a hpool
      exact h.pairedNotPooled a ua ha hcpa hp0
  · intro a hpool
    obtain ⟨hp0, hnid⟩ := inPools_of_remove t.waiting id a hpool
    rw [hget, if_neg hnid]
    exact h.pooledReg a hp0
  · intro a ua ha
    rw [hget] at ha
    split at ha
    · cases ha
    · exact h.genderBoth a ua ha
  · show setDelete t.waiting.male id = []
    rw [h.maleNil]
    rfl
  · show setDelete t.waiting.female id = []
    rw [h.femaleNil]
    rfl

theorem coreInv_handleDisconnect (s : ServerState) (id : String) (h : CoreInv s) :
    CoreInv (handleDisconnect s id).1 := by
  cases hu : mapGet s.activeUsers id with
  | none =>
    rw [handleDisconnect_of_get_none s id hu]
    apply coreInv_deleteId s id h
    intro a ua ha hab
    have hx := h.peerReg a ua id ha hab
    rw [hu] at hx
    simp at hx
  | some u =>
    cases hcp : u.currentPeer with
    | none =>
      rw [handleDisconnect_of_unpaired s id u hu hcp]
      apply coreInv_deleteId s id h
      intro a ua ha hab
      have hx := h.pairSymm a ua id u ha hu hab
      rw [hcp] at hx
      cases hx
    | some p =>
      have hpReg := h.peerReg id u p hu hcp
      obtain ⟨peer, hpeer⟩ := Option.isSome_iff_exists.mp hpReg
      have hpid : ¬ p = id := by
        intro he
        apply h.noSelf id u hu
        rw [hcp, he]
      have hpeercp : peer.currentPeer = some id := h.pairSymm id u p peer hu hpeer hcp
      rw [handleDisconnect_of_paired s id u p peer hu hcp hpeer]
      have hget : ∀ k, mapGet (mapDelete (mapSet s.activeUsers p { peer with currentPeer := none }) id) k =
          if k = id then none
          else if k = p then some { peer with currentPeer := none }
          else mapGet s.activeUsers k := by
        intro k
        rw [mapGet_mapDelete, mapGet_mapSet]
      refine ⟨?_, ?_, ?_, ?_, ?_, ?_, ?_, ?_, h.reportIds⟩
      · intro a ua q ha hq
        rw [hget] at ha
        rw [hget]
        split at ha
        · cases ha
        · split at ha
          · cases ha
            cases hq
          · rename_i hnid hnp
            have hqid : ¬ q = id := by
              intro he
              subst he
              have hx := h.pairSymm a ua q u ha hu hq
              rw [hcp] at hx
              injection hx with hpa
              exact hnp hpa.symm
            rw [if_neg hqid]
            split
            · simp
            · exact h.peerReg a ua q ha hq
      · intro a ua b ub ha hb hab
        rw [hget] at ha hb
        split at ha
        · cases ha
        · split at ha
          · cases ha
            cases hab
          · rename_i hnaid hnap
            split at hb
            · cases hb
            · split at hb
              · rename_i hbp
                cases hb
                rw [hbp] at hab
                have hx := h.pairSymm a ua p peer ha hpeer hab
                rw [hpeercp] at hx
                injection hx with hia
                exact absurd hia.symm hnaid
              · exact h.pairSymm a ua b ub ha hb hab
      · intro a ua ha
        rw [hget] at ha
        split at ha
        · cases ha
        · split at ha
          · cases ha
            intro hx
            cases hx
          · exact h.noSelf a ua ha
      · intro a ua ha hcpa hpool
        obtain ⟨hp0, hnid⟩ := inPools_of_remove s.waiting id a hpool
        rw [hget] at ha
        rw [if_neg hnid] at ha
        split at ha
        · cases ha
          exact absurd rfl hcpa
        · exact h.pairedNotPooled a ua ha hcpa hp0
      · intro a hpool
        obtain ⟨hp0, hnid⟩ := inPools_of_remove s.waiting id a hpool
        rw [hget, if_neg hnid]
        split
        · simp
        · exact h.pooledReg a hp0
      · intro a ua ha
        rw [hget] at ha
        split at ha
        · cases ha
        · split at ha
          · cases ha
            exact h.genderBoth p peer hpeer
          · exact h.genderBoth a ua ha
      · show setDelete s.waiting.male id = []
        rw [h.maleNil]
        rfl
      · show setDelete s.waiting.female id = []
        rw [h.femaleNil]
        rfl

theorem handleRelay_state (s : ServerState) (id : String) (kind : MsgKind)
    (payload : String) : (handleRelay s id kind payload).1 = s := by
  cases hu : mapGet s.activeUsers id with
  | none => rw [handleRelay_of_get_none s id kind payload hu]
  | some u =>
    cases hcp : u.currentPeer with
    | none => rw [handleRelay_of_unpaired s id kind payload u hu hcp]
    | some p => rw [handleRelay_of_paired s id kind payload u p hu hcp]

theorem step_ok (s : ServerState) (e : Event) (h : CoreInv s) (hwf : eventWF s e = true) :
    ∃ s' out, step s e = some (s', out) ∧ CoreInv s' := by
  cases e with
  | connect id =>
    have hfresh : mapGet s.activeUsers id = none := Option.isNone_iff_eq_none.mp hwf
    exact ⟨_, _, rfl, coreInv_handleConnect s id h hfresh⟩
  | updatePreferences id p =>
    exact ⟨_, _, rfl, coreInv_handleUpdatePreferences s id p h⟩
  | findPeer id => exact handleFindPeer_ok s id h
  | relayMsg id kind payload =>
    refine ⟨(handleRelay s id kind payload).1, (handleRelay s id kind payload).2, rfl, ?_⟩
    rw [handleRelay_state]
    exact h
  | reportUser id reason details t =>
    exact ⟨_, _, rfl, coreInv_handleReport s id reason details t h⟩
  | disconnect id =>
    exact ⟨_, _, rfl, coreInv_handleDisconnect s id h⟩

theorem coreInv_step (s : ServerState) (e : Event) (s' : ServerState) (out : List Output)
    (h : CoreInv s) (hwf : eventWF s e = true) (hstep : step s e = some (s', out)) :
    CoreInv s' := by
  obtain ⟨s1, out1, heq, hinv⟩ := step_ok s e h hwf
  rw [heq] at hstep
  injection hstep with hp
  rw [Prod.mk.injEq] at hp
  exact hp.1 ▸ hinv

theorem runEvents_inv (evs : List Event) : ∀ s s' : ServerState, CoreInv s →
    runEvents s evs = some s' → CoreInv s' := by
  induction evs with
  | nil =>
    intro s s' h hrun
    cases hrun
    exact h
  | cons e evs ih =>
    intro s s' h hrun
    rw [runEvents] at hrun
    split at hrun
    · rename_i hwf
      cases hstep : step s e with
      | none =>
        rw [hstep] at hrun
        cases hrun
      | some pr =>
        obtain ⟨ps, pout⟩ := pr
        rw [hstep] at hrun
        exact ih ps s' (coreInv_step s e ps pout h hwf hstep) hrun
    · cases hrun

theorem reachable_coreInv (s : ServerState) (hs : Reachable s) : CoreInv s := by
  obtain ⟨evs, hrun⟩ := hs
  exact runEvents_inv evs initState s coreInv_initState hrun

theorem step_isSome (s : ServerState) (e : Event) (h : CoreInv s) : (step s e).isSome := by
  cases e with
  | findPeer id =>
    obtain ⟨s', out, heq, _⟩ := handleFindPeer_ok s id h
    show (handleFindPeer s id).isSome
    rw [heq]
    rfl
  | connect id => rfl
  | updatePreferences id p => rfl
  | relayMsg id kind payload => rfl
  | reportUser id reason details t => rfl
  | disconnect id => rfl

theorem setDelete_setDelete (l : List String) (x : String) :
    setDelete (setDelete l x) x = setDelete l x := by
  apply setDelete_of_not_mem
  rw [mem_setDelete]
  rintro ⟨_, hx⟩
  exact hx rfl

theorem removeFromWaitingPools_idem (w : Pools) (x : String) :
    removeFromWaitingPools (removeFromWaitingPools w x) x = removeFromWaitingPools w x := by
  show (⟨setDelete (setDelete w.male x) x, setDelete (setDelete w.female x) x,
      setDelete (setDelete w.both x) x⟩ : Pools) = _
  rw [setDelete_setDelete, setDelete_setDelete, setDelete_setDelete]
  rfl

theorem handleDisconnect_fst (s : ServerState) (id : String) :
    ∃ t : ServerState, (handleDisconnect s id).1 =
      { t with activeUsers := mapDelete t.activeUsers id,
               waiting := removeFromWaitingPools t.waiting id } := by
  cases hu : mapGet s.activeUsers id with
  | none => exact ⟨s, by rw [handleDisconnect_of_get_none s id hu]⟩
  | some u =>
    cases hcp : u.currentPeer with
    | none => exact ⟨s, by rw [handleDisconnect_of_unpaired s id u hu hcp]⟩
    | some p =>
      cases hp : mapGet s.activeUsers p with
      | none => exact ⟨s, by rw [handleDisconnect_of_dangling s id u p hu hcp hp]⟩
      | some peer =>
        exact ⟨{ s with activeUsers := mapSet s.activeUsers p { peer with currentPeer := none } },
          by rw [handleDisconnect_of_paired s id u p peer hu hcp hp]⟩

/-! Claim theorems. -/

/-- Claim C1 (pairing symmetry): in every state reachable from the
empty state by complete event handlings, for every two registered
sessions A and B, `A.currentPeer = B.id` holds iff
`B.currentPeer = A.id`. -/
theorem pairing_symmetry (s : ServerState) (hs : Reachable s) (a : String) (ua : User)
    (b : String) (ub : User) (ha : mapGet s.activeUsers a = some ua)
    (hb : mapGet s.activeUsers b = some ub) :
    ua.currentPeer = some b ↔ ub.currentPeer = some a := by
  have h := reachable_coreInv s hs
  exact ⟨fun hab => h.pairSymm a ua b ub ha hb hab,
    fun hba => h.pairSymm b ub a ua hb ha hba⟩

/-- Witness for C1: the concrete reachable state `sPaired` pairs "a"
and "b" mutually. -/
theorem pairing_symmetry_witness :
    (User.mk "a" "both" ⟨"both", "any"⟩ (some "b")).currentPeer = some "b" ↔
      (User.mk "b" "both" ⟨"both", "any"⟩ (some "a")).currentPeer = some "a" :=
  pairing_symmetry sPaired ⟨pairEvents, rfl⟩ "a" _ "b" _ rfl rfl

/-- Claim C2 (match-engine algorithm): the embedded `findMatch` agrees
everywhere with the specification-worded algorithm `findMatchSpec`
(candidate list by desired category; when the seeker's desired region
is not "any", keep exactly the candidates whose own stored region
preference equals it or is "any"; exclude the seeker; first survivor
in iteration order). -/
theorem findMatch_eq_findMatchSpec (s : ServerState) (seekerId : String) :
    findMatch s seekerId = findMatchSpec s seekerId := by
  unfold findMatch findMatchSpec
  cases hu : mapGet s.activeUsers seekerId with
  | none => rfl
  | some user =>
    dsimp only
    exact find?_eq_filter_head? _ _

/-- Claim C3 (paired sessions are never queued): in every reachable
state, a registered session with `currentPeer` set belongs to none of
the three waiting-pool partitions. -/
theorem paired_sessions_never_queued (s : ServerState) (hs : Reachable s) (a : String)
    (ua : User) (ha : mapGet s.activeUsers a = some ua) (hcp : ua.currentPeer ≠ none) :
    ¬ inPools s.waiting a :=
  (reachable_coreInv s hs).pairedNotPooled a ua ha hcp

/-- Witness for C3: in `sPaired` the paired session "a" is in no pool. -/
theorem paired_sessions_never_queued_witness : ¬ inPools sPaired.waiting "a" :=
  paired_sessions_never_queued sPaired ⟨pairEvents, rfl⟩ "a" _ rfl (by decide)

/-- Claim C4 (pool exclusivity): in every reachable state each id is
in at most one waiting-pool partition, and enqueueing a registered
session puts its id in exactly the partition selected by its own
declared gender (anything else than "male"/"female" meaning the
"both" partition), having removed it from the other partitions. -/
theorem pool_exclusivity (s : ServerState) (hs : Reachable s) :
    (∀ a : String, ¬(a ∈ s.waiting.male ∧ a ∈ s.waiting.female) ∧
        ¬(a ∈ s.waiting.male ∧ a ∈ s.waiting.both) ∧
        ¬(a ∈ s.waiting.female ∧ a ∈ s.waiting.both)) ∧
    (∀ (t : ServerState) (i : String) (u : User), mapGet t.activeUsers i = some u →
      (i ∈ (addToWaitingPool t i).waiting.male ↔ u.gender = "male") ∧
      (i ∈ (addToWaitingPool t i).waiting.female ↔ u.gender = "female") ∧
      (i ∈ (addToWaitingPool t i).waiting.both ↔
        (¬ u.gender = "male" ∧ ¬ u.gender = "female"))) := by
  have h := reachable_coreInv s hs
  constructor
  · intro a
    refine ⟨?_, ?_, ?_⟩ <;> rintro ⟨h1, h2⟩
    · rw [h.maleNil] at h1
      cases h1
    · rw [h.maleNil] at h1
      cases h1
    · rw [h.femaleNil] at h1
      cases h1
  · intro t i u hu
    by_cases hgm : u.gender = "male"
    · rw [addToWaitingPool_of_male t i u hu hgm]
      refine ⟨?_, ?_, ?_⟩
      · simp [mem_setAdd, hgm]
      · simp [mem_setDelete, hgm]
      · simp [mem_setDelete, hgm]
    · by_cases hgf : u.gender = "female"
      · rw [addToWaitingPool_of_female t i u hu hgm hgf]
        refine ⟨?_, ?_, ?_⟩
        · simp [mem_setDelete, hgf]
        · simp [mem_setAdd, hgf]
        · simp [mem_setDelete, hgf]
      · rw [addToWaitingPool_of_both t i u hu hgm hgf]
        refine ⟨?_, ?_, ?_⟩
        · simp [mem_setDelete, hgm]
        · simp [mem_setDelete, hgf]
        · simp [mem_setAdd, hgm, hgf]

/-- Witness for C4: in `sWaiting`, "a" is not in two pools at once,
and enqueueing "a" puts it in the "both" partition. -/
theorem pool_exclusivity_witness :
    ¬("a" ∈ sWaiting.waiting.male ∧ "a" ∈ sWaiting.waiting.both) ∧
      ("a" ∈ (addToWaitingPool sWaiting "a").waiting.both ↔
        (¬ (initUser "a").gender = "male" ∧ ¬ (initUser "a").gender = "female")) := by
  have h := pool_exclusivity sWaiting ⟨waitEvents, rfl⟩
  exact ⟨(h.1 "a").2.1, (h.2 sWaiting "a" (initUser "a") rfl).2.2⟩

/-- Claim C5 (report behaviour): a report from an unregistered or
unpaired session changes nothing and creates no report; otherwise
exactly one report record with the reporter, the current peer, the
given reason, details and timestamp is appended to the store under a
fresh identifier not used by any stored report, both sessions end the
turn unpaired, the waiting pools are untouched, and the peer is sent
exactly one peer-disconnected notification. -/
theorem report_user_behaviour (s : ServerState) (hs : Reachable s)
    (id reason details : String) (t : Nat) :
    (mapGet s.activeUsers id = none →
      step s (.reportUser id reason details t) = some (s, [])) ∧
    (∀ u, mapGet s.activeUsers id = some u → u.currentPeer = none →
      step s (.reportUser id reason details t) = some (s, [])) ∧
    (∀ u p, mapGet s.activeUsers id = some u → u.currentPeer = some p →
      ∃ s', step s (.reportUser id reason details t) =
          some (s', [(p, OutMsg.peerDisconnected)]) ∧
        s'.storage.reports = s.storage.reports ++
          [⟨s.storage.reportIdCounter, id, p, reason, details, t⟩] ∧
        (∀ r ∈ s.storage.reports, ¬ r.id = s.storage.reportIdCounter) ∧
        (mapGet s'.activeUsers id).map User.currentPeer = some none ∧
        (mapGet s'.activeUsers p).map User.currentPeer = some none ∧
        s'.waiting = s.waiting) := by
  have h := reachable_coreInv s hs
  refine ⟨?_, ?_, ?_⟩
  · intro hu
    show some (handleReport s id reason details t) = _
    rw [handleReport_of_get_none s id reason details t hu]
  · intro u hu hcp
    show some (handleReport s id reason details t) = _
    rw [handleReport_of_unpaired s id reason details t u hu hcp]
  · intro u p hu hcp
    obtain ⟨peer, hpeer⟩ := Option.isSome_iff_exists.mp (h.peerReg id u p hu hcp)
    have hpid : ¬ p = id := by
      intro he
      apply h.noSelf id u hu
      rw [hcp, he]
    refine ⟨{ s with
        activeUsers := mapSet (mapSet s.activeUsers p { peer with currentPeer := none }) id { u with currentPeer := none },
        storage := ⟨s.storage.reports ++ [⟨s.storage.reportIdCounter, id, p, reason, details, t⟩], s.storage.reportIdCounter + 1⟩ },
      ?_, rfl, ?_, ?_, ?_, rfl⟩
    · show some (handleReport s id reason details t) = _
      rw [handleReport_of_paired s id reason details t u p peer hu hcp hpeer]
    · intro r hr he
      have hx := h.reportIds r hr
      rw [he] at hx
      exact Nat.lt_irrefl _ hx
    · show (mapGet (mapSet (mapSet s.activeUsers p { peer with currentPeer := none }) id { u with currentPeer := none }) id).map User.currentPeer = some none
      rw [mapGet_mapSet, if_pos rfl]
      rfl
    · show (mapGet (mapSet (mapSet s.activeUsers p { peer with currentPeer := none }) id { u with currentPeer := none }) p).map User.currentPeer = some none
      rw [mapGet_mapSet, if_neg hpid, mapGet_mapSet, if_pos rfl]
      rfl

/-- Witness for C5: reporting from the reachable paired state
`sPaired`. -/
theorem report_user_behaviour_witness :
    ∃ s', step sPaired (.reportUser "a" "X" "d" 5) =
        some (s', [("b", OutMsg.peerDisconnected)]) ∧
      s'.storage.reports = sPaired.storage.reports ++
        [⟨sPaired.storage.reportIdCounter, "a", "b", "X", "d", 5⟩] ∧
      (∀ r ∈ sPaired.storage.reports, ¬ r.id = sPaired.storage.reportIdCounter) ∧
      (mapGet s'.activeUsers "a").map User.currentPeer = some none ∧
      (mapGet s'.activeUsers "b").map User.currentPeer = some none ∧
      s'.waiting = sPaired.waiting :=
  (report_user_behaviour sPaired ⟨pairEvents, rfl⟩ "a" "X" "d" 5).2.2 _ "b" rfl rfl

/-- Claim C6 (relay semantics): a signaling or chat payload from an
unregistered or unpaired sender is dropped without error or state
change; from a paired sender it is forwarded unmodified, tagged with
the same kind, to exactly the current peer, with no state change. -/
theorem relay_semantics (s : ServerState) (id : String) (kind : MsgKind)
    (payload : String) :
    ((mapGet s.activeUsers id = none ∨
        ∃ u, mapGet s.activeUsers id = some u ∧ u.currentPeer = none) →
      step s (.relayMsg id kind payload) = some (s, [])) ∧
    (∀ u p, mapGet s.activeUsers id = some u → u.currentPeer = some p →
      step s (.relayMsg id kind payload) =
        some (s, [(p, OutMsg.relayed kind payload)])) := by
  constructor
  · rintro (hu | ⟨u, hu, hcp⟩)
    · show some (handleRelay s id kind payload) = _
      rw [handleRelay_of_get_none s id kind payload hu]
    · show some (handleRelay s id kind payload) = _
      rw [handleRelay_of_unpaired s id kind payload u hu hcp]
  · intro u p hu hcp
    show some (handleRelay s id kind payload) = _
    rw [handleRelay_of_paired s id kind payload u p hu hcp]

/-- Witness for C6: a chat message relayed from "a" to its peer "b"
in `sPaired`. -/
theorem relay_semantics_witness :
    step sPaired (.relayMsg "a" MsgKind.chatMessage "hi") =
      some (sPaired, [("b", OutMsg.relayed MsgKind.chatMessage "hi")]) :=
  (relay_semantics sPaired "a" MsgKind.chatMessage "hi").2 _ "b" rfl rfl

/-- Claim C7 (idempotent disconnect): for every state and identifier,
the first disconnect succeeds, and handling disconnect again from the
resulting state raises no error, changes nothing, and emits nothing. -/
theorem disconnect_idempotent (s : ServerState) (id : String) :
    ∃ s1 out1, step s (.disconnect id) = some (s1, out1) ∧
      step s1 (.disconnect id) = some (s1, []) := by
  obtain ⟨t, ht⟩ := handleDisconnect_fst s id
  refine ⟨(handleDisconnect s id).1, (handleDisconnect s id).2, rfl, ?_⟩
  have hget : mapGet (handleDisconnect s id).1.activeUsers id = none := by
    rw [ht]
    show mapGet (mapDelete t.activeUsers id) id = none
    rw [mapGet_mapDelete, if_pos rfl]
  show some (handleDisconnect (handleDisconnect s id).1 id) = _
  rw [handleDisconnect_of_get_none _ id hget]
  rw [mapDelete_of_get_none _ id hget]
  have hw : removeFromWaitingPools (handleDisconnect s id).1.waiting id =
      (handleDisconnect s id).1.waiting := by
    rw [ht]
    show removeFromWaitingPools (removeFromWaitingPools t.waiting id) id =
      removeFromWaitingPools t.waiting id
    exact removeFromWaitingPools_idem t.waiting id
  rw [hw]

/-- Claim C8 (preference-update frame): updating preferences of a
registered session replaces exactly that session's preferences object
(its own gender and peer are kept, every other session's entry is
untouched, pools and storage are unchanged, nothing is emitted); for
an unregistered identifier nothing changes. -/
theorem update_preferences_frame (s : ServerState) (id : String) (p : Prefs) :
    (mapGet s.activeUsers id = none →
      step s (.updatePreferences id p) = some (s, [])) ∧
    (∀ u, mapGet s.activeUsers id = some u →
      ∃ s', step s (.updatePreferences id p) = some (s', []) ∧
        mapGet s'.activeUsers id = some { u with preferences := p } ∧
        (∀ k, ¬ k = id → mapGet s'.activeUsers k = mapGet s.activeUsers k) ∧
        s'.waiting = s.waiting ∧ s'.storage = s.storage) := by
  constructor
  · intro hu
    show some (handleUpdatePreferences s id p, []) = _
    rw [handleUpdatePreferences_of_get_none s id p hu]
  · intro u hu
    refine ⟨{ s with activeUsers := mapSet s.activeUsers id { u with preferences := p } },
      ?_, ?_, ?_, rfl, rfl⟩
    · show some (handleUpdatePreferences s id p, []) = _
      rw [handleUpdatePreferences_of_get_some s id p u hu]
    · show mapGet (mapSet s.activeUsers id { u with preferences := p }) id = _
      rw [mapGet_mapSet, if_pos rfl]
    · intro k hk
      show mapGet (mapSet s.activeUsers id { u with preferences := p }) k = _
      rw [mapGet_mapSet, if_neg hk]

/-- Witness for C8: updating "a" in `sPaired` keeps its pairing and
leaves "b" untouched. -/
theorem update_preferences_frame_witness :
    ∃ s', step sPaired (.updatePreferences "a" ⟨"female", "us"⟩) = some (s', []) ∧
      mapGet s'.activeUsers "a" =
        some { User.mk "a" "both" ⟨"both", "any"⟩ (some "b") with preferences := ⟨"female", "us"⟩ } ∧
      (∀ k, ¬ k = "a" → mapGet s'.activeUsers k = mapGet sPaired.activeUsers k) ∧
      s'.waiting = sPaired.waiting ∧ s'.storage = sPaired.storage :=
  (update_preferences_frame sPaired "a" ⟨"female", "us"⟩).2 _ rfl

/-- Claim C9 (inert self-category): no handler modifies a session's
own declared gender after connection sets it to "both", so in every
reachable state the male and female waiting partitions are empty,
every registered session's gender is "both", and a seeker desiring
specifically "male" or "female" is never returned a candidate. -/
theorem self_category_inert (s : ServerState) (hs : Reachable s) :
    s.waiting.male = [] ∧ s.waiting.female = [] ∧
      (∀ a ua, mapGet s.activeUsers a = some ua → ua.gender = "both") ∧
      (∀ a ua, mapGet s.activeUsers a = some ua →
        (ua.preferences.gender = "male" ∨ ua.preferences.gender = "female") →
        findMatch s a = none) := by
  have h := reachable_coreInv s hs
  refine ⟨h.maleNil, h.femaleNil, h.genderBoth, ?_⟩
  intro a ua ha hpref
  unfold findMatch
  rw [ha]
  dsimp only
  rcases hpref with hp | hp
  · rw [if_pos hp, h.maleNil]
    split
    · rfl
    · rfl
  · have hngm : ¬ ua.preferences.gender = "male" := by
      rw [hp]
      decide
    rw [if_neg hngm, if_pos hp, h.femaleNil]
    split
    · rfl
    · rfl

/-- Witness for C9: a male-seeking seeker in the reachable state
`sMaleSeek` gets no candidate. -/
theorem self_category_inert_witness : findMatch sMaleSeek "a" = none :=
  (self_category_inert sMaleSeek ⟨maleSeekEvents, rfl⟩).2.2.2 "a" _ rfl (Or.inl rfl)

/-- Claim C10 (pool membership implies registration): in every
reachable state every pooled id is registered, any candidate returned
by `findMatch` is registered, and hence no event handler crashes — in
particular the unguarded candidate dereference in the find-peer
commit branch always finds a session. -/
theorem pool_membership_implies_registration (s : ServerState) (hs : Reachable s) :
    (∀ a, inPools s.waiting a → (mapGet s.activeUsers a).isSome) ∧
      (∀ a m, findMatch s a = some m → (mapGet s.activeUsers m).isSome) ∧
      (∀ e : Event, (step s e).isSome) := by
  have h := reachable_coreInv s hs
  refine ⟨h.pooledReg, ?_, fun e => step_isSome s e h⟩
  intro a m hm
  obtain ⟨_, _, mu, hmu, _⟩ := findMatch_sound s a m h hm
  rw [hmu]
  rfl

/-- Witness for C10: the waiting session "a" of `sWaiting` is
registered, and a find-peer event cannot crash there. -/
theorem pool_membership_implies_registration_witness :
    (mapGet sWaiting.activeUsers "a").isSome ∧
      (step sWaiting (.findPeer "b")).isSome := by
  have h := pool_membership_implies_registration sWaiting ⟨waitEvents, rfl⟩
  exact ⟨h.1 "a" (Or.inr (Or.inr (by decide))), h.2.2 (.findPeer "b")⟩
